import Mathlib

/-!
Shallow embedding of the journey-planner page (`Home` component) and the
Next.js edge middleware, translated from the repository source:

* `src/unnamed/part_000` — the page: waypoint store, `geocodeScenes`,
  `moveWaypoint`, `clearRoute`, `toggleTerrain`, initial map style.
* `src/middleware.ts` — the pass-through edge middleware.
* `src/unnamed/part_002` — the prior middleware revision with `getClientInfo`.

JS numbers produced by `parseFloat` are modelled as `JsNum` (NaN or a finite
rational); the network (fetch + res.json) is an oracle `String → FetchResult`
passed as a parameter; browser alerts are collected as a `Notice` list.
-/

namespace Journey

/-- A JS number as produced by `parseFloat`: `NaN` or a finite value
(finite doubles modelled as rationals). -/
inductive JsNum where
  | nan
  | num (q : ℚ)
  deriving DecidableEq, Repr, Inhabited

/-- A waypoint `{ name, coord: [lon, lat] }` as stored in the `waypoints`
React state (coord is `[parseFloat(lon), parseFloat(lat)]`, longitude first). -/
structure Waypoint where
  name : String
  coord : JsNum × JsNum
  deriving DecidableEq, Repr, Inhabited

/--
`moveWaypoint(index, direction)` from `src/unnamed/part_000` lines 268–276:

```js
const newIndex = index + direction;
if (newIndex < 0 || newIndex >= prev.length) return prev;
const reordered = [...prev];
[reordered[index], reordered[newIndex]] = [reordered[newIndex], reordered[index]];
return reordered;
```

The destructuring assignment swaps the entries at `index` and `newIndex`.
The page only ever calls this with `0 ≤ index < prev.length` (indices come
from mapping over the list); for an out-of-bounds `index` whose `newIndex`
is in bounds, the JS code writes to a sparse/extended array, which has no
counterpart in the `List` model, so that region is mapped to `prev` and no
theorem below relies on it. -/
def moveWaypoint (prev : List Waypoint) (index direction : ℤ) : List Waypoint :=
  let newIndex := index + direction
  if newIndex < 0 ∨ (prev.length : ℤ) ≤ newIndex then prev
  else if 0 ≤ index ∧ index < (prev.length : ℤ) then
    (prev.set index.toNat (prev.getD newIndex.toNat default)).set newIndex.toNat
      (prev.getD index.toNat default)
  else prev

/-- `clearRoute` from `src/unnamed/part_000` lines 282–284: `setWaypoints([])`. -/
def clearRoute (_prev : List Waypoint) : List Waypoint := []

/-! ### String helpers

`sceneText.split(/\n+/)` and `String.prototype.trim` are modelled on the
character list of the string, structurally, so that proofs can evaluate them. -/

/-- Split a character list at every occurrence of `sep` (JS
`String.prototype.split` with a single-character separator: each separator
occurrence ends a segment, so `n` separators yield `n+1` segments). -/
def splitOnChar (sep : Char) : List Char → List (List Char)
  | [] => [[]]
  | c :: rest =>
    match splitOnChar sep rest with
    | [] => [[]]
    | s :: ss => if c = sep then [] :: s :: ss else (c :: s) :: ss

/-- JS `String.prototype.trim` on a character list: drop leading and
trailing whitespace. -/
def trimChars (l : List Char) : List Char :=
  ((l.dropWhile Char.isWhitespace).reverse.dropWhile Char.isWhitespace).reverse

/--
The name-list parsing at the head of `geocodeScenes`
(`src/unnamed/part_000` lines 203–206):

```js
const names = sceneText.split(/\n+/).map((s) => s.trim()).filter(Boolean);
```

`split(/\n+/)` differs from splitting at every single `'\n'` only in the
empty segments produced between consecutive newlines, and `filter(Boolean)`
removes every empty string, so composing single-character split with the
trim/filter pipeline gives exactly the JS result. -/
def parseNames (sceneText : String) : List String :=
  ((((splitOnChar '\n' sceneText.toList).map trimChars).filter
    (fun l => l ≠ [])).map fun l => String.mk l)

/-! ### Geocoding (`geocodeScenes`, `src/unnamed/part_000` lines 202–260)

The network is an oracle `String → FetchResult` giving, per name, the joint
outcome of `fetch`, `res.ok`, `res.json()` and the `parseFloat` calls on the
first result's `lat`/`lon` fields (all external to the repository). -/

/-- The first geocoder candidate's coordinate fields after `parseFloat`
(`const { lat, lon } = data[0]` followed by `parseFloat`). -/
structure GeoEntry where
  lat : JsNum
  lon : JsNum
  deriving DecidableEq, Repr

/-- Outcome of one lookup, as the code in the `try` block distinguishes:

* `ok entries` — `res.ok` held and `res.json()` returned data;
  `entries = []` covers both an empty array and a non-array body
  (`Array.isArray(data) && data.length > 0` fails either way);
* `httpFail` — `!res.ok`, so `throw new Error('Geocoding failed for ' + name)`;
* `fetchError msg` — `fetch`/`res.json` threw with message `msg`. -/
inductive FetchResult where
  | ok (entries : List GeoEntry)
  | httpFail
  | fetchError (msg : String)
  deriving DecidableEq, Repr

/-- A user-visible `alert(...)` issued by `geocodeScenes`. -/
inductive Notice where
  | emptyInput
  | notFound (name : String)
  | geocodeError (name msg : String)
  deriving DecidableEq, Repr

/-- One loop iteration of `geocodeScenes` for a single `name`: the waypoint
pushed onto `newWaypoints` (if any) and the alert raised (if any). -/
def geocodeStep (f : String → FetchResult) (name : String) :
    Option Waypoint × Option Notice :=
  match f name with
  | .ok (e :: _) => (some ⟨name, (e.lon, e.lat)⟩, none)
  | .ok [] => (none, some (.notFound name))
  | .httpFail => (none, some (.geocodeError name ("Geocoding failed for " ++ name)))
  | .fetchError msg => (none, some (.geocodeError name msg))

/-- The sequential `for (const name of names)` loop: waypoints and alerts
accumulate in input order. -/
def geocodeLoop (f : String → FetchResult) : List String → List Waypoint × List Notice
  | [] => ([], [])
  | n :: rest =>
    let s := geocodeStep f n
    let r := geocodeLoop f rest
    (s.1.toList ++ r.1, s.2.toList ++ r.2)

/-- Observable outcome of a `geocodeScenes` call: the final `waypoints`
state, the alerts raised, and the names for which a lookup was issued. -/
structure GeocodeResult where
  store : List Waypoint
  notices : List Notice
  requests : List String
  deriving DecidableEq, Repr

/--
`geocodeScenes` (`src/unnamed/part_000` lines 202–260) as a function of the
fetch oracle, the textarea contents and the waypoint state before the call:
parse `names`; if empty, alert and return with no requests; otherwise look
every name up in order, and call `setWaypoints(newWaypoints)` only when
`newWaypoints.length > 0` (otherwise the store keeps its previous value). -/
def geocodeScenes (f : String → FetchResult) (sceneText : String)
    (prev : List Waypoint) : GeocodeResult :=
  let names := parseNames sceneText
  if names = [] then ⟨prev, [.emptyInput], []⟩
  else
    let r := geocodeLoop f names
    ⟨if r.1 = [] then prev else r.1, r.2, names⟩

/-- Whether a lookup for `name` succeeds (the code's
`Array.isArray(data) && data.length > 0` along the non-throwing path). -/
def succeeds (f : String → FetchResult) (name : String) : Bool :=
  match f name with
  | .ok (_ :: _) => true
  | _ => false

/-- The waypoint (if any) that the iteration for `name` pushes onto
`newWaypoints`. -/
def wpOf (f : String → FetchResult) (name : String) : Option Waypoint :=
  match f name with
  | .ok (e :: _) => some ⟨name, (e.lon, e.lat)⟩
  | _ => none

/-- The alert (if any) that the iteration for `name` raises. -/
def noticeOf (f : String → FetchResult) (name : String) : Option Notice :=
  match f name with
  | .ok (_ :: _) => none
  | .ok [] => some (.notFound name)
  | .httpFail => some (.geocodeError name ("Geocoding failed for " ++ name))
  | .fetchError msg => some (.geocodeError name msg)

/-- Join character lines with single newlines (inverse of line splitting,
used to state what the name parsing does to an arbitrary list of lines). -/
def joinLinesNl : List (List Char) → List Char
  | [] => []
  | [l] => l
  | l :: l' :: rest => l ++ '\n' :: joinLinesNl (l' :: rest)

/-- Join string lines with single newlines. -/
def intercalateNl (lines : List String) : String :=
  String.mk (joinLinesNl (lines.map String.toList))

/-- The Waypoint invariant from the spec: both coordinates finite, with
longitude in [-180, 180] and latitude in [-90, 90]. -/
def coordValid : JsNum × JsNum → Bool
  | (.num lon, .num lat) =>
    -180 ≤ lon && lon ≤ 180 && -90 ≤ lat && lat ≤ 90
  | _ => false

/-! ### Bounding box (`src/unnamed/part_000` lines 240–250)

```js
let minLon = newWaypoints[0].coord[0]; let maxLon = newWaypoints[0].coord[0];
let minLat = newWaypoints[0].coord[1]; let maxLat = newWaypoints[0].coord[1];
newWaypoints.forEach((wp) => {
  const [lon, lat] = wp.coord;
  if (lon < minLon) minLon = lon;  if (lon > maxLon) maxLon = lon;
  if (lat < minLat) minLat = lat;  if (lat > maxLat) maxLat = lat;
});
```

Modelled over rational coordinates (the claims about this algorithm concern
finite numeric inputs). -/

/-- The four extrema being accumulated. -/
structure BBox where
  minLon : ℚ
  maxLon : ℚ
  minLat : ℚ
  maxLat : ℚ
  deriving DecidableEq, Repr

/-- The `forEach` body: four independent conditional updates. -/
def bboxStep (b : BBox) (c : ℚ × ℚ) : BBox :=
  let b1 := if c.1 < b.minLon then { b with minLon := c.1 } else b
  let b2 := if c.1 > b1.maxLon then { b1 with maxLon := c.1 } else b1
  let b3 := if c.2 < b2.minLat then { b2 with minLat := c.2 } else b2
  if c.2 > b3.maxLat then { b3 with maxLat := c.2 } else b3

/-- The whole computation: initialise all four extrema from the first
coordinate, then scan the full list (the JS `forEach` revisits the first
element, which never changes the accumulator). `none` when the list is
empty — the code only runs this under `newWaypoints.length > 0`. -/
def computeBBox : List (ℚ × ℚ) → Option BBox
  | [] => none
  | c :: rest => some ((c :: rest).foldl bboxStep ⟨c.1, c.1, c.2, c.2⟩)

/-! ### Terrain toggle (`src/unnamed/part_000` lines 291–300 and 93–101) -/

/-- Argument of `map.setTerrain({...})`. -/
structure TerrainSpec where
  source : String
  exaggeration : ℚ
  deriving DecidableEq, Repr

/-- The `terrain` member of the initial map style and of `toggleTerrain`'s
enable branch: `{ source: 'terrain', exaggeration: 1.5 }`. -/
def terrainSpec : TerrainSpec := ⟨"terrain", 3 / 2⟩

/-- The render configuration the terrain claims talk about: the React
`terrainEnabled` flag and the map's current terrain setting
(`map.setTerrain(null)` ↦ `none`). -/
structure RenderState where
  terrainEnabled : Bool
  mapTerrain : Option TerrainSpec
  deriving DecidableEq, Repr

/-- `toggleTerrain` (`src/unnamed/part_000` lines 291–300), with the map
present: if `terrainEnabled` then `map.setTerrain(null)` else
`map.setTerrain({source:'terrain', exaggeration:1.5})`; then flip the flag. -/
def toggleTerrain (s : RenderState) : RenderState :=
  if s.terrainEnabled then ⟨!s.terrainEnabled, none⟩
  else ⟨!s.terrainEnabled, some terrainSpec⟩

/-- The state right after map construction: the initial style (lines 93–96)
contains `terrain: { source: 'terrain', exaggeration: 1.5 }`, while the
React flag starts as `useState(false)` (line 37). -/
def initialRenderState : RenderState := ⟨false, some terrainSpec⟩

/-! ### Edge request filter (`src/middleware.ts`, `src/unnamed/part_002`)

A request is represented by its header map: `req.headers.get(k)` returns the
header value or `null`, modelled as `String → Option String`. -/

/-- A request's headers: `headers.get` as a function. -/
def Headers : Type := String → Option String

/-- `v.split(',')[0].trim()` — the trimmed first entry of a comma-separated
header value (JS `split` always returns a non-empty array, so index 0 is
always present). -/
def firstForwarded (v : String) : String :=
  String.mk (trimChars ((splitOnChar ',' v.toList).headD []))

/-- The `ip` field of `getClientInfo` (`src/unnamed/part_002` lines 14–17):

```js
req.headers.get('x-forwarded-for')?.split(',')[0]?.trim() ||
  req.headers.get('x-real-ip') || undefined
```

`||` takes the right operand whenever the left is `null`/`undefined` or the
empty string, and a final falsy value collapses to `undefined` (`none`). -/
def getClientInfoIp (h : Headers) : Option String :=
  let fwd :=
    match h "x-forwarded-for" with
    | some v => firstForwarded v
    | none => ""
  if fwd ≠ "" then some fwd
  else
    match h "x-real-ip" with
    | some w => if w ≠ "" then some w else none
    | none => none

/-- What the middleware does with an inbound request. -/
structure MwOutcome where
  forwarded : Bool
  request : Headers
  errorHeader : Option String

/-- `middleware` (`src/middleware.ts` lines 10–21): `try { return
NextResponse.next() } catch (err) { ... return res }` — the request is
passed through in both branches; an internal fault (modelled by the
`fault` parameter, `none` = no exception) only adds an
`x-middleware-error` response header. `NextResponse.next()` continues with
the inbound request unchanged. -/
def middleware (req : Headers) (fault : Option String) : MwOutcome :=
  match fault with
  | none => ⟨true, req, none⟩
  | some msg => ⟨true, req, some msg⟩

/-! ## Helper lemmas -/

theorem set_cons_perm {α : Type _} [Inhabited α] (t : List α) (m : ℕ) (h : m < t.length)
    (a : α) : List.Perm (t.getD m default :: t.set m a) (a :: t) := by
  induction t generalizing m with
  | nil => simp at h
  | cons b t' ih =>
    cases m with
    | zero => simpa using List.Perm.swap a b t'
    | succ m' =>
      have h' : m' < t'.length := by simpa using h
      have step := ih m' h'
      simpa using ((List.Perm.swap b _ _).trans (step.cons b)).trans (List.Perm.swap a b t')

theorem swap_set_perm {α : Type _} [Inhabited α] (l : List α) (i j : ℕ) (hi : i < l.length)
    (hj : j < l.length) :
    List.Perm ((l.set i (l.getD j default)).set j (l.getD i default)) l := by
  induction l generalizing i j with
  | nil => simp at hi
  | cons b t ih =>
    cases i with
    | zero =>
      cases j with
      | zero => simp
      | succ j' =>
        have hj' : j' < t.length := by simpa using hj
        simpa using set_cons_perm t j' hj' b
    | succ i' =>
      have hi' : i' < t.length := by simpa using hi
      cases j with
      | zero => simpa using set_cons_perm t i' hi' b
      | succ j' =>
        have hj' : j' < t.length := by simpa using hj
        simpa using (ih i' j' hi' hj').cons b

theorem moveWaypoint_oob (prev : List Waypoint) (index direction : ℤ)
    (h : index + direction < 0 ∨ (prev.length : ℤ) ≤ index + direction) :
    moveWaypoint prev index direction = prev := by
  simp only [moveWaypoint]
  rw [if_pos h]

theorem moveWaypoint_swap_eq (prev : List Waypoint) (i : ℕ) (d : ℤ) (hi : i < prev.length)
    (h0 : 0 ≤ (i : ℤ) + d) (hl : (i : ℤ) + d < (prev.length : ℤ)) :
    moveWaypoint prev i d =
      (prev.set i (prev.getD ((i : ℤ) + d).toNat default)).set ((i : ℤ) + d).toNat
        (prev.getD i default) := by
  simp only [moveWaypoint]
  rw [if_neg (by omega), if_pos (by constructor <;> omega)]
  simp

theorem bboxStep_eq (b : BBox) (c : ℚ × ℚ) :
    bboxStep b c = ⟨min b.minLon c.1, max b.maxLon c.1, min b.minLat c.2, max b.maxLat c.2⟩ := by
  simp only [bboxStep]
  split_ifs <;> cases b <;>
    simp_all only [BBox.mk.injEq, not_lt, gt_iff_lt] <;>
    refine ⟨?_, ?_, ?_, ?_⟩ <;>
    simp_all [min_def, max_def, le_of_lt]

theorem foldl_bboxStep_minLon (l : List (ℚ × ℚ)) (b : BBox) :
    (l.foldl bboxStep b).minLon = (l.map Prod.fst).foldl min b.minLon := by
  induction l generalizing b with
  | nil => rfl
  | cons c t ih => simp [ih, bboxStep_eq]

theorem foldl_bboxStep_maxLon (l : List (ℚ × ℚ)) (b : BBox) :
    (l.foldl bboxStep b).maxLon = (l.map Prod.fst).foldl max b.maxLon := by
  induction l generalizing b with
  | nil => rfl
  | cons c t ih => simp [ih, bboxStep_eq]

theorem foldl_bboxStep_minLat (l : List (ℚ × ℚ)) (b : BBox) :
    (l.foldl bboxStep b).minLat = (l.map Prod.snd).foldl min b.minLat := by
  induction l generalizing b with
  | nil => rfl
  | cons c t ih => simp [ih, bboxStep_eq]

theorem foldl_bboxStep_maxLat (l : List (ℚ × ℚ)) (b : BBox) :
    (l.foldl bboxStep b).maxLat = (l.map Prod.snd).foldl max b.maxLat := by
  induction l generalizing b with
  | nil => rfl
  | cons c t ih => simp [ih, bboxStep_eq]

theorem foldl_min_le_init {α : Type _} [LinearOrder α] (l : List α) (a : α) :
    l.foldl min a ≤ a := by
  induction l generalizing a with
  | nil => exact le_refl a
  | cons c t ih => exact le_trans (ih (min a c)) (min_le_left a c)

theorem foldl_min_le_mem {α : Type _} [LinearOrder α] (l : List α) (a x : α) (hx : x ∈ l) :
    l.foldl min a ≤ x := by
  induction l generalizing a with
  | nil => simp at hx
  | cons c t ih =>
    rw [List.foldl_cons]
    rcases List.mem_cons.mp hx with h | h
    · subst h
      exact le_trans (foldl_min_le_init t (min a x)) (min_le_right a x)
    · exact ih (min a c) h

theorem foldl_min_mem {α : Type _} [LinearOrder α] (l : List α) (a : α) :
    l.foldl min a = a ∨ l.foldl min a ∈ l := by
  induction l generalizing a with
  | nil => exact Or.inl rfl
  | cons c t ih =>
    rcases ih (min a c) with h | h
    · rcases min_choice a c with hm | hm
      · exact Or.inl (by rw [List.foldl_cons, h, hm])
      · exact Or.inr (by rw [List.foldl_cons, h, hm]; exact List.mem_cons_self c t)
    · exact Or.inr (List.mem_cons_of_mem c h)

theorem init_le_foldl_max {α : Type _} [LinearOrder α] (l : List α) (a : α) :
    a ≤ l.foldl max a := by
  induction l generalizing a with
  | nil => exact le_refl a
  | cons c t ih => exact le_trans (le_max_left a c) (ih (max a c))

theorem mem_le_foldl_max {α : Type _} [LinearOrder α] (l : List α) (a x : α) (hx : x ∈ l) :
    x ≤ l.foldl max a := by
  induction l generalizing a with
  | nil => simp at hx
  | cons c t ih =>
    rw [List.foldl_cons]
    rcases List.mem_cons.mp hx with h | h
    · subst h
      exact le_trans (le_max_right a x) (init_le_foldl_max t (max a x))
    · exact ih (max a c) h

theorem foldl_max_mem {α : Type _} [LinearOrder α] (l : List α) (a : α) :
    l.foldl max a = a ∨ l.foldl max a ∈ l := by
  induction l generalizing a with
  | nil => exact Or.inl rfl
  | cons c t ih =>
    rcases ih (max a c) with h | h
    · rcases max_choice a c with hm | hm
      · exact Or.inl (by rw [List.foldl_cons, h, hm])
      · exact Or.inr (by rw [List.foldl_cons, h, hm]; exact List.mem_cons_self c t)
    · exact Or.inr (List.mem_cons_of_mem c h)

theorem geocodeStep_eq (f : String → FetchResult) (n : String) :
    geocodeStep f n = (wpOf f n, noticeOf f n) := by
  simp only [geocodeStep, wpOf, noticeOf]
  rcases f n with es | _ | m
  · cases es <;> rfl
  · rfl
  · rfl

theorem geocodeLoop_eq (f : String → FetchResult) (names : List String) :
    geocodeLoop f names = (names.filterMap (wpOf f), names.filterMap (noticeOf f)) := by
  induction names with
  | nil => rfl
  | cons n t ih =>
    cases hw : wpOf f n <;> cases hn : noticeOf f n <;>
      simp [geocodeLoop, geocodeStep_eq, hw, hn, List.filterMap_cons, ih]

theorem filterMap_wpOf_names (f : String → FetchResult) (names : List String) :
    (names.filterMap (wpOf f)).map Waypoint.name = names.filter (succeeds f) := by
  induction names with
  | nil => rfl
  | cons n t ih =>
    rcases hf : f n with es | _ | m
    · cases es <;> simp [wpOf, succeeds, hf, List.filterMap_cons, List.filter_cons, ih]
    · simp [wpOf, succeeds, hf, List.filterMap_cons, List.filter_cons, ih]
    · simp [wpOf, succeeds, hf, List.filterMap_cons, List.filter_cons, ih]

theorem toList_mk (l : List Char) : (String.mk l).toList = l := rfl

theorem mk_eq_empty_iff (l : List Char) : String.mk l = "" ↔ l = [] := by
  rw [show ("" : String) = String.mk [] from rfl]
  exact ⟨fun h => by injection h, fun h => by rw [h]⟩

theorem splitOnChar_ne_nil (sep : Char) (l : List Char) : splitOnChar sep l ≠ [] := by
  cases l with
  | nil => simp [splitOnChar]
  | cons c rest =>
    simp only [splitOnChar]
    rcases h : splitOnChar sep rest with _ | ⟨s, ss⟩
    · simp
    · split_ifs <;> simp

theorem splitOnChar_no_sep (sep : Char) (l : List Char) (h : sep ∉ l) :
    splitOnChar sep l = [l] := by
  induction l with
  | nil => rfl
  | cons c rest ih =>
    have hc : ¬(c = sep) := fun he => h (he ▸ List.mem_cons_self c rest)
    have hr : sep ∉ rest := fun hm => h (List.mem_cons_of_mem c hm)
    simp [splitOnChar, ih hr, hc]

theorem splitOnChar_append (sep : Char) (l rest : List Char) (h : sep ∉ l) :
    splitOnChar sep (l ++ sep :: rest) = l :: splitOnChar sep rest := by
  induction l with
  | nil =>
    simp only [List.nil_append, splitOnChar]
    rcases hr : splitOnChar sep rest with _ | ⟨s, ss⟩
    · exact absurd hr (splitOnChar_ne_nil sep rest)
    · simp
  | cons c l' ih =>
    have hc : ¬(c = sep) := fun he => h (he ▸ List.mem_cons_self c l')
    have hl : sep ∉ l' := fun hm => h (List.mem_cons_of_mem c hm)
    rw [List.cons_append]
    simp only [splitOnChar, ih hl]
    simp [hc]

theorem splitJoin_filter (L : List (List Char)) (h : ∀ l ∈ L, '\n' ∉ l) :
    (((splitOnChar '\n' (joinLinesNl L)).map trimChars).filter fun l => l ≠ []) =
      ((L.map trimChars).filter fun l => l ≠ []) := by
  induction L with
  | nil => rfl
  | cons a L ih =>
    have ha : '\n' ∉ a := h a (List.mem_cons_self a L)
    have hL : ∀ l ∈ L, '\n' ∉ l := fun l hl => h l (List.mem_cons_of_mem a hl)
    cases L with
    | nil => rw [show joinLinesNl [a] = a from rfl, splitOnChar_no_sep '\n' a ha]
    | cons b t =>
      rw [show joinLinesNl (a :: b :: t) = a ++ '\n' :: joinLinesNl (b :: t) from rfl,
        splitOnChar_append '\n' _ _ ha]
      simp only [List.map_cons, List.filter_cons, ih hL]

theorem filter_map_mk (L : List String) :
    (((L.map fun s => trimChars s.toList).filter fun l => l ≠ []).map fun l => String.mk l) =
      (L.map fun s => String.mk (trimChars s.toList)).filter fun s => s ≠ "" := by
  induction L with
  | nil => rfl
  | cons a L ih =>
    rw [List.map_cons, List.filter_cons, apply_ite (List.map fun l => String.mk l),
      List.map_cons, ih, List.map_cons, List.filter_cons]
    by_cases hc : trimChars a.data = []
    · rw [if_neg (by simp [String.toList, hc]),
        if_neg (by simp [String.toList, mk_eq_empty_iff, hc])]
    · rw [if_pos (by simp [String.toList, hc]),
        if_pos (by simp [String.toList, mk_eq_empty_iff, hc])]

theorem parseNames_intercalate (lines : List String)
    (h : ∀ l ∈ lines, '\n' ∉ l.toList) :
    parseNames (intercalateNl lines) =
      (lines.map fun s => String.mk (trimChars s.toList)).filter fun s => s ≠ "" := by
  simp only [parseNames, intercalateNl, toList_mk]
  rw [splitJoin_filter (lines.map String.toList)
    (fun l hl => by
      rcases List.mem_map.mp hl with ⟨s, hs, rfl⟩
      exact h s hs)]
  rw [List.map_map]
  exact filter_map_mk lines

/-! ## Claim theorems -/

set_option maxRecDepth 8192 in
/-- C3: the bounding-box computation initialises all four extrema from the
first coordinate and updates each independently in one pass, so on every
non-empty coordinate list it returns the componentwise minima and maxima
(each extremum is attained and bounds every coordinate); on
`[(0,0), (5,10), (-2,3)]` (lon, lat) it yields `minLon = -2`, `maxLon = 5`,
`minLat = 0`, `maxLat = 10`; and a single-point input yields a zero-area box
with `min = max` on both axes. -/
theorem computeBBox_correct :
    (∀ (c : ℚ × ℚ) (l : List (ℚ × ℚ)) (b : BBox), computeBBox (c :: l) = some b →
      (b.minLon ∈ (c :: l).map Prod.fst ∧ ∀ x ∈ (c :: l).map Prod.fst, b.minLon ≤ x) ∧
      (b.maxLon ∈ (c :: l).map Prod.fst ∧ ∀ x ∈ (c :: l).map Prod.fst, x ≤ b.maxLon) ∧
      (b.minLat ∈ (c :: l).map Prod.snd ∧ ∀ x ∈ (c :: l).map Prod.snd, b.minLat ≤ x) ∧
      (b.maxLat ∈ (c :: l).map Prod.snd ∧ ∀ x ∈ (c :: l).map Prod.snd, x ≤ b.maxLat)) ∧
    computeBBox [(0, 0), (5, 10), (-2, 3)] = some ⟨-2, 5, 0, 10⟩ ∧
    (∀ c : ℚ × ℚ, computeBBox [c] = some ⟨c.1, c.1, c.2, c.2⟩) := by
  refine ⟨?_, by decide, ?_⟩
  · intro c l b h
    simp only [computeBBox, Option.some.injEq] at h
    subst h
    have hc1 : c.1 ∈ (c :: l).map Prod.fst := List.mem_map_of_mem Prod.fst (List.mem_cons_self c l)
    have hc2 : c.2 ∈ (c :: l).map Prod.snd := List.mem_map_of_mem Prod.snd (List.mem_cons_self c l)
    refine ⟨⟨?_, ?_⟩, ⟨?_, ?_⟩, ⟨?_, ?_⟩, ⟨?_, ?_⟩⟩
    · rw [foldl_bboxStep_minLon]
      rcases foldl_min_mem ((c :: l).map Prod.fst) c.1 with h | h
      · rw [h]; exact hc1
      · exact h
    · intro x hx
      rw [foldl_bboxStep_minLon]
      exact foldl_min_le_mem _ c.1 x hx
    · rw [foldl_bboxStep_maxLon]
      rcases foldl_max_mem ((c :: l).map Prod.fst) c.1 with h | h
      · rw [h]; exact hc1
      · exact h
    · intro x hx
      rw [foldl_bboxStep_maxLon]
      exact mem_le_foldl_max _ c.1 x hx
    · rw [foldl_bboxStep_minLat]
      rcases foldl_min_mem ((c :: l).map Prod.snd) c.2 with h | h
      · rw [h]; exact hc2
      · exact h
    · intro x hx
      rw [foldl_bboxStep_minLat]
      exact foldl_min_le_mem _ c.2 x hx
    · rw [foldl_bboxStep_maxLat]
      rcases foldl_max_mem ((c :: l).map Prod.snd) c.2 with h | h
      · rw [h]; exact hc2
      · exact h
    · intro x hx
      rw [foldl_bboxStep_maxLat]
      exact mem_le_foldl_max _ c.2 x hx
  · intro c
    simp [computeBBox, bboxStep_eq]

/-- C3 witness: the extrema property instantiated on the spec's example. -/
theorem computeBBox_correct_witness :
    ((-2 : ℚ) ∈ ([((0 : ℚ), (0 : ℚ)), (5, 10), (-2, 3)]).map Prod.fst ∧
      ∀ x ∈ ([((0 : ℚ), (0 : ℚ)), (5, 10), (-2, 3)]).map Prod.fst, (-2 : ℚ) ≤ x) :=
  ((computeBBox_correct.1 (0, 0) [(5, 10), (-2, 3)] ⟨-2, 5, 0, 10⟩
    computeBBox_correct.2.1).1)

set_option maxRecDepth 2048 in
/-- C1: the code, contrary to the claimed invariant, performs no range or
finiteness validation on parsed geocoder coordinates: a response whose
parsed (lon, lat) is (999, 999) — outside [-180, 180] × [-90, 90] — is
still pushed into the store as a waypoint, and so is a NaN coordinate. -/
theorem geocode_no_range_validation :
    (geocodeScenes (fun _ => FetchResult.ok [⟨.num 999, .num 999⟩]) "X" []).store =
      [⟨"X", (.num 999, .num 999)⟩] ∧
    coordValid (.num 999, .num 999) = false ∧
    (geocodeScenes (fun _ => FetchResult.ok [⟨.nan, .nan⟩]) "X" []).store =
      [⟨"X", (.nan, .nan)⟩] ∧
    coordValid (.nan, .nan) = false := by
  refine ⟨by decide, by decide, by decide, by decide⟩

/-- C8: when the input is empty after splitting and trimming, `geocodeScenes`
fails fast: exactly one user-visible notice, no lookups issued, and the
waypoint store untouched. -/
theorem geocode_empty_input_fail_fast (f : String → FetchResult) (sceneText : String)
    (prev : List Waypoint) (h : parseNames sceneText = []) :
    (geocodeScenes f sceneText prev).store = prev ∧
    (geocodeScenes f sceneText prev).notices = [Notice.emptyInput] ∧
    (geocodeScenes f sceneText prev).requests = [] := by
  simp only [geocodeScenes, h, if_pos]
  exact ⟨trivial, trivial, trivial⟩

/-- C8 witness: a textarea containing only blank lines. -/
theorem geocode_empty_input_fail_fast_witness :
    (geocodeScenes (fun _ => FetchResult.ok []) "\n  \n" []).store = [] ∧
    (geocodeScenes (fun _ => FetchResult.ok []) "\n  \n" []).notices =
      [Notice.emptyInput] ∧
    (geocodeScenes (fun _ => FetchResult.ok []) "\n  \n" []).requests = [] :=
  geocode_empty_input_fail_fast (fun _ => FetchResult.ok []) "\n  \n" [] (by decide)

/-- C2 counterexample: a batch whose only name fails, run against a
non-empty store, leaves the old store in place, so the final store is not
the (empty) subset of input names that succeeded. -/
theorem geocode_all_fail_keeps_store :
    (geocodeScenes (fun _ => FetchResult.ok []) "X"
        [⟨"Old", (.num 0, .num 0)⟩]).store.map Waypoint.name ≠
      (parseNames "X").filter (succeeds (fun _ => FetchResult.ok [])) := by decide

/-- C2 (amended): per-name failures are non-fatal; when at least one name
succeeds, the final store is exactly the subset of input names that
succeeded, in original input order, and every failed name produces exactly
its own notice; when no name succeeds the store is left unchanged (it is
not replaced by the empty result). The two-name scenario with one zero-result
name yields a store of length 1 holding the successful name and exactly one
notice naming the failed place. -/
theorem geocode_batch_subset :
    (∀ (f : String → FetchResult) (s : String) (prev : List Waypoint),
      parseNames s ≠ [] →
        (geocodeScenes f s prev).notices = (parseNames s).filterMap (noticeOf f) ∧
        ((parseNames s).filter (succeeds f) ≠ [] →
          (geocodeScenes f s prev).store.map Waypoint.name =
            (parseNames s).filter (succeeds f)) ∧
        ((parseNames s).filter (succeeds f) = [] →
          (geocodeScenes f s prev).store = prev)) ∧
    ((geocodeScenes (fun n => if n = "A" then FetchResult.ok [⟨.num 2, .num 1⟩]
        else FetchResult.ok []) "A\nB" []).store = [⟨"A", (.num 1, .num 2)⟩] ∧
      (geocodeScenes (fun n => if n = "A" then FetchResult.ok [⟨.num 2, .num 1⟩]
        else FetchResult.ok []) "A\nB" []).notices = [Notice.notFound "B"]) := by
  constructor
  · intro f s prev hne
    simp only [geocodeScenes, if_neg hne, geocodeLoop_eq]
    by_cases hws : (parseNames s).filterMap (wpOf f) = []
    · have hfe : (parseNames s).filter (succeeds f) = [] := by
        rw [← filterMap_wpOf_names f (parseNames s), hws]; rfl
      refine ⟨trivial, fun hct => absurd hfe hct, fun _ => ?_⟩
      simp [hws]
    · refine ⟨trivial, fun _ => ?_, fun hfe => ?_⟩
      · simp only [if_neg hws]
        exact filterMap_wpOf_names f (parseNames s)
      · exfalso
        apply hws
        have := filterMap_wpOf_names f (parseNames s)
        rw [hfe] at this
        exact List.map_eq_nil_iff.mp this
  · exact ⟨by decide, by decide⟩

/-- C2 witness: the notices characterisation applied to a one-name batch
whose lookup returns a non-success HTTP status. -/
theorem geocode_batch_subset_witness :
    (geocodeScenes (fun _ => FetchResult.httpFail) "P" []).notices =
      (parseNames "P").filterMap (noticeOf (fun _ => FetchResult.httpFail)) :=
  (geocode_batch_subset.1 (fun _ => FetchResult.httpFail) "P" [] (by decide)).1

/-- C6 counterexample: at the program's own initial configuration the
initial map style already attaches terrain (`terrain: {source, exaggeration}`
in the style) while the Terrain Flag starts false, so toggling twice ends
with terrain detached — not the map's terrain setting before the first
toggle — even though the flag itself is restored. -/
theorem toggleTerrain_twice_initial_not_restored :
    (toggleTerrain (toggleTerrain initialRenderState)).mapTerrain ≠
      initialRenderState.mapTerrain ∧
    (toggleTerrain (toggleTerrain initialRenderState)).terrainEnabled =
      initialRenderState.terrainEnabled := by decide

/-- C6 (amended): toggling terrain twice always restores the Terrain Flag,
and it restores the whole render configuration (including the map's terrain
setting) exactly when the starting map terrain is consistent with the flag
— detached when the flag is false, the exaggeration spec when it is true.
From the app's initial configuration, whose style attaches terrain while
the flag starts false, the second toggle leaves terrain detached instead. -/
theorem toggleTerrain_twice_flag_restored (s : RenderState) :
    (toggleTerrain (toggleTerrain s)).terrainEnabled = s.terrainEnabled ∧
    (s.mapTerrain = (if s.terrainEnabled then some terrainSpec else none) →
      toggleTerrain (toggleTerrain s) = s) := by
  rcases s with ⟨e, mt⟩
  cases e <;> simp [toggleTerrain] <;> intro h <;> simp [h]

/-- C6 witness: from a flag-consistent no-terrain state, two toggles are the
identity. -/
theorem toggleTerrain_twice_flag_restored_witness :
    toggleTerrain (toggleTerrain ⟨false, none⟩) = (⟨false, none⟩ : RenderState) :=
  (toggleTerrain_twice_flag_restored ⟨false, none⟩).2 (by decide)

/-- C9 counterexample: with headers `x-forwarded-for: ",9.9.9.9"` and
`x-real-ip: "1.1.1.1"`, the forwarded-for header is present but its first
comma-separated entry is empty, and the code falls through (`||` on the
empty string) to the real-IP header — so the extracted IP is not the first
entry of the present forwarded-for header as the claim states. -/
theorem getClientInfoIp_not_first_entry :
    getClientInfoIp (fun k => if k = "x-forwarded-for" then some ",9.9.9.9"
      else if k = "x-real-ip" then some "1.1.1.1" else none) = some "1.1.1.1" ∧
    firstForwarded ",9.9.9.9" = "" ∧
    (some "1.1.1.1" : Option String) ≠ some "" := by
  refine ⟨by decide, by decide, by decide⟩

/-- C9 (amended): the middleware always forwards and never rejects the
request, unmodified, fault or not; the extracted forwarding-IP is the
trimmed first entry of the comma-separated forwarded-for header when that
entry is non-empty, else the real-IP header when present and non-empty,
else undefined. -/
theorem middleware_forward_and_ip :
    (∀ (req : Headers) (fault : Option String),
      (middleware req fault).forwarded = true ∧ (middleware req fault).request = req) ∧
    (∀ (h : Headers) (v : String), h "x-forwarded-for" = some v →
      firstForwarded v ≠ "" → getClientInfoIp h = some (firstForwarded v)) ∧
    (∀ (h : Headers) (w : String),
      (∀ v, h "x-forwarded-for" = some v → firstForwarded v = "") →
      h "x-real-ip" = some w → w ≠ "" → getClientInfoIp h = some w) ∧
    (∀ h : Headers,
      (∀ v, h "x-forwarded-for" = some v → firstForwarded v = "") →
      (∀ w, h "x-real-ip" = some w → w = "") →
      getClientInfoIp h = none) := by
  refine ⟨fun req fault => ?_, fun h v hv hne => ?_, fun h w hfwd hw hne => ?_,
    fun h hfwd hreal => ?_⟩
  · cases fault <;> exact ⟨rfl, rfl⟩
  · simp [getClientInfoIp, hv, hne]
  · cases hv : h "x-forwarded-for" with
    | some v => simp [getClientInfoIp, hv, hfwd v hv, hw, hne]
    | none => simp [getClientInfoIp, hv, hw, hne]
  · cases hv : h "x-forwarded-for" with
    | some v =>
      cases hw : h "x-real-ip" with
      | some w => simp [getClientInfoIp, hv, hfwd v hv, hw, hreal w hw]
      | none => simp [getClientInfoIp, hv, hfwd v hv, hw]
    | none =>
      cases hw : h "x-real-ip" with
      | some w => simp [getClientInfoIp, hv, hw, hreal w hw]
      | none => simp [getClientInfoIp, hv, hw]

/-- C9 witness: a well-formed forwarded-for header yields its trimmed first
entry. -/
theorem middleware_forward_and_ip_witness :
    getClientInfoIp
        (fun k => if k = "x-forwarded-for" then some " 1.2.3.4 , 5.6.7.8" else none) =
      some (firstForwarded " 1.2.3.4 , 5.6.7.8") :=
  middleware_forward_and_ip.2.1
    (fun k => if k = "x-forwarded-for" then some " 1.2.3.4 , 5.6.7.8" else none)
    " 1.2.3.4 , 5.6.7.8" (by decide) (by decide)

/-- C7: name parsing keeps one name per non-empty line after trimming and
discards blank lines (stated as a roundtrip: splitting the newline-join of
any newline-free lines yields exactly the trimmed non-empty lines, in
order); lookups are issued exactly for the parsed names in input order; and
the input containing a blank line between Eiffel Tower and Louvre Museum
issues exactly those two lookups, in that order. -/
theorem parse_and_lookup_order :
    (∀ lines : List String, (∀ l ∈ lines, '\n' ∉ l.toList) →
      parseNames (intercalateNl lines) =
        (lines.map fun s => String.mk (trimChars s.toList)).filter fun s => s ≠ "") ∧
    (∀ (f : String → FetchResult) (s : String) (prev : List Waypoint),
      parseNames s ≠ [] → (geocodeScenes f s prev).requests = parseNames s) ∧
    (∀ (f : String → FetchResult) (prev : List Waypoint),
      (geocodeScenes f "Eiffel Tower\n\nLouvre Museum" prev).requests =
        ["Eiffel Tower", "Louvre Museum"]) := by
  refine ⟨parseNames_intercalate, fun f s prev hne => ?_, fun f prev => ?_⟩
  · simp only [geocodeScenes, if_neg hne]
  · have hp : parseNames "Eiffel Tower\n\nLouvre Museum" =
        ["Eiffel Tower", "Louvre Museum"] := by decide
    simp only [geocodeScenes, hp]
    rw [if_neg (by simp)]

/-- C7 witness: the roundtrip applied to three lines (one blank), and the
request list of a concrete two-name batch. -/
theorem parse_and_lookup_order_witness :
    parseNames (intercalateNl ["Eiffel Tower", "  ", "Louvre Museum"]) =
      ((["Eiffel Tower", "  ", "Louvre Museum"].map
        fun s => String.mk (trimChars s.toList)).filter fun s => s ≠ "") ∧
    (geocodeScenes (fun _ => FetchResult.httpFail) "A\nB" []).requests =
      parseNames "A\nB" :=
  ⟨parse_and_lookup_order.1 ["Eiffel Tower", "  ", "Louvre Museum"] (by decide),
    parse_and_lookup_order.2.1 (fun _ => FetchResult.httpFail) "A\nB" [] (by decide)⟩

/-- C4: `moveAt` is its own inverse: for every waypoint sequence, every
in-bounds index `i` and every direction `d ∈ {-1, +1}` with `i + d` also in
bounds, applying `moveAt(i, d)` and then `moveAt(i+d, -d)` restores the
original sequence. -/
theorem moveWaypoint_involutive (prev : List Waypoint) (i : ℕ) (d : ℤ)
    (hi : i < prev.length) (hd : d = 1 ∨ d = -1)
    (h0 : 0 ≤ (i : ℤ) + d) (hl : (i : ℤ) + d < (prev.length : ℤ)) :
    moveWaypoint (moveWaypoint prev i d) ((i : ℤ) + d) (-d) = prev := by
  have hd0 : d ≠ 0 := by rcases hd with h | h <;> omega
  set j : ℕ := ((i : ℤ) + d).toNat with hjdef
  have hjz : (j : ℤ) = (i : ℤ) + d := by omega
  have hjlen : j < prev.length := by omega
  have hne : i ≠ j := by omega
  set a : Waypoint := prev.getD i default with hadef
  set b : Waypoint := prev.getD j default with hbdef
  have h1 : moveWaypoint prev i d = (prev.set i b).set j a :=
    moveWaypoint_swap_eq prev i d hi h0 hl
  set l₁ : List Waypoint := (prev.set i b).set j a with hl1def
  have hlen1 : l₁.length = prev.length := by simp [hl1def]
  have h2 : moveWaypoint l₁ ((i : ℤ) + d) (-d) =
      (l₁.set j (l₁.getD (((j : ℤ) + -d).toNat) default)).set (((j : ℤ) + -d).toNat)
        (l₁.getD j default) := by
    rw [← hjz]
    exact moveWaypoint_swap_eq l₁ j (-d) (by omega) (by omega) (by omega)
  have htn : ((j : ℤ) + -d).toNat = i := by omega
  have hli : l₁[i]? = some b := by
    rw [hl1def, List.getElem?_set_ne (Ne.symm hne), List.getElem?_set_self (by simpa using hi)]
  have hlj : l₁[j]? = some a := by
    rw [hl1def, List.getElem?_set_self (by simpa using hjlen)]
  have hgi : l₁.getD i default = b := by
    rw [List.getD_eq_getElem?_getD, hli]; rfl
  have hgj : l₁.getD j default = a := by
    rw [List.getD_eq_getElem?_getD, hlj]; rfl
  rw [h1, h2, htn, hgi, hgj]
  apply List.ext_getElem?
  intro n
  by_cases hni : n = i
  · subst hni
    rw [List.getElem?_set_self (by simp [hl1def]; omega),
      List.getElem?_eq_getElem hi]
    rw [hadef, List.getD_eq_getElem?_getD, List.getElem?_eq_getElem hi]
    rfl
  · by_cases hnj : n = j
    · subst hnj
      rw [List.getElem?_set_ne (fun h => hni h.symm),
        List.getElem?_set_self (by simp [hl1def]; omega),
        List.getElem?_eq_getElem hjlen]
      rw [hbdef, List.getD_eq_getElem?_getD, List.getElem?_eq_getElem hjlen]
      rfl
    · rw [List.getElem?_set_ne (fun h => hni h.symm),
        List.getElem?_set_ne (fun h => hnj h.symm), hl1def,
        List.getElem?_set_ne (fun h => hnj h.symm),
        List.getElem?_set_ne (fun h => hni h.symm)]

/-- C4 witness: a concrete two-element instance of the involution. -/
theorem moveWaypoint_involutive_witness :
    moveWaypoint
      (moveWaypoint [⟨"A", (.num 0, .num 0)⟩, ⟨"B", (.num 1, .num 1)⟩] 0 1)
      (((0 : ℕ) : ℤ) + 1) (-1) =
      [⟨"A", (.num 0, .num 0)⟩, ⟨"B", (.num 1, .num 1)⟩] :=
  moveWaypoint_involutive [⟨"A", (.num 0, .num 0)⟩, ⟨"B", (.num 1, .num 1)⟩] 0 1
    (by decide) (Or.inl rfl) (by decide) (by decide)

/-- C5: whenever the target index `index + direction` is out of bounds,
`moveAt` returns a sequence equal by value to its input — a silent no-op,
not an error. -/
theorem moveWaypoint_oob_noop (prev : List Waypoint) (index direction : ℤ)
    (h : index + direction < 0 ∨ (prev.length : ℤ) ≤ index + direction) :
    moveWaypoint prev index direction = prev :=
  moveWaypoint_oob prev index direction h

/-- C5 witness: moving the last element further down is a no-op. -/
theorem moveWaypoint_oob_noop_witness :
    moveWaypoint [⟨"A", (.num 0, .num 0)⟩] 0 1 = [⟨"A", (.num 0, .num 0)⟩] :=
  moveWaypoint_oob_noop [⟨"A", (.num 0, .num 0)⟩] 0 1 (by decide)

/-- C10: for every waypoint sequence, in-bounds index and arbitrary integer
direction, `moveWaypoint` returns a sequence of the same length that is a
permutation of the input, and it either returns the input unchanged or
swaps exactly the entries at positions `index` and `index + direction`. -/
theorem moveWaypoint_preserves_multiset (prev : List Waypoint) (i : ℕ) (d : ℤ)
    (hi : i < prev.length) :
    ((moveWaypoint prev i d).length = prev.length ∧
      List.Perm (moveWaypoint prev i d) prev) ∧
    (moveWaypoint prev i d = prev ∨
      ∃ j : ℕ, (j : ℤ) = (i : ℤ) + d ∧ j < prev.length ∧
        (moveWaypoint prev i d)[i]? = prev[j]? ∧
        (moveWaypoint prev i d)[j]? = prev[i]? ∧
        ∀ n : ℕ, n ≠ i → n ≠ j → (moveWaypoint prev i d)[n]? = prev[n]?) := by
  by_cases hob : (i : ℤ) + d < 0 ∨ (prev.length : ℤ) ≤ (i : ℤ) + d
  · rw [moveWaypoint_oob prev i d hob]
    exact ⟨⟨rfl, List.Perm.refl prev⟩, Or.inl rfl⟩
  · push_neg at hob
    have h0 : 0 ≤ (i : ℤ) + d := hob.1
    have hl : (i : ℤ) + d < (prev.length : ℤ) := hob.2
    set j : ℕ := ((i : ℤ) + d).toNat with hjdef
    have hjz : (j : ℤ) = (i : ℤ) + d := by omega
    have hjlen : j < prev.length := by omega
    rw [moveWaypoint_swap_eq prev i d hi h0 hl, ← hjdef]
    refine ⟨⟨by simp, swap_set_perm prev i j hi hjlen⟩, Or.inr ⟨j, hjz, hjlen, ?_, ?_, ?_⟩⟩
    · by_cases hij : i = j
      · rw [hij, List.getElem?_set_self (by simpa using hjlen),
          List.getD_eq_getElem?_getD, List.getElem?_eq_getElem hjlen]
        rfl
      · rw [List.getElem?_set_ne (fun h => hij h.symm),
          List.getElem?_set_self (by simpa using hi),
          List.getD_eq_getElem?_getD, List.getElem?_eq_getElem hjlen]
        rfl
    · rw [List.getElem?_set_self (by simpa using hjlen),
        List.getD_eq_getElem?_getD, List.getElem?_eq_getElem hi]
      rfl
    · intro n hni hnj
      rw [List.getElem?_set_ne (fun h => hnj h.symm),
        List.getElem?_set_ne (fun h => hni h.symm)]

/-- C10 witness: a concrete instance with direction 5 (out-of-bounds
target, no-op branch of the disjunction still a permutation). -/
theorem moveWaypoint_preserves_multiset_witness :
    (moveWaypoint [⟨"A", (.num 0, .num 0)⟩, ⟨"B", (.num 1, .num 1)⟩] 0 5).length = 2 ∧
      List.Perm (moveWaypoint [⟨"A", (.num 0, .num 0)⟩, ⟨"B", (.num 1, .num 1)⟩] 0 5)
        [⟨"A", (.num 0, .num 0)⟩, ⟨"B", (.num 1, .num 1)⟩] :=
  (moveWaypoint_preserves_multiset
    [⟨"A", (.num 0, .num 0)⟩, ⟨"B", (.num 1, .num 1)⟩] 0 5 (by decide)).1

end Journey
